import Mathlib

/-
Verification of the memdb transaction engine (`src/nomad/memdb/txn.go`)
against its natural-language specification.

The Go code is shallowly embedded: byte strings become `List Nat`,
the immutable radix trees (`iradix.Tree` / `iradix.Txn`, an external
library consumed through the interface of spec §6) become association
lists with insert-or-replace semantics, Go `map`s become association
lists, and `nil` pointers / failed type assertions become `Option`
misses that the operations surface as an explicit `panics` outcome.
Structures, field names and control flow mirror `txn.go` line by line;
parts of the repository that are not under `src/` (the schema types,
the path codec, transaction construction) are modelled from the spec
and marked as such in their doc comments.
-/

namespace Memdb

/-- Byte-sequence keys of the radix trees (`[]byte` in Go). -/
abbrev Key := List Nat

/-- Stored records (`obj interface{}` in Go).  Objects are modelled as a
pair of numeric fields, enough to express the spec's `{id, age}` scenario;
indexers below are arbitrary functions out of this type. -/
abbrev Obj := Nat × Nat

/-- Arguments passed to `First`/`Get`/`Delete` (`args ...interface{}`). -/
abbrev Arg := Nat

/-- Association-list lookup; models both `iradix` tree `Get` and Go map
lookup (`m[k]` with its `ok` flag). -/
def alookup {α β : Type} [DecidableEq α] : List (α × β) → α → Option β
  | [], _ => none
  | (k0, v0) :: rest, k => if k = k0 then some v0 else alookup rest k

/-- Association-list insert-or-replace; models both `iradix` `Insert`
(which replaces the value stored at an equal key) and Go map assignment. -/
def ainsert {α β : Type} [DecidableEq α] : List (α × β) → α → β → List (α × β)
  | [], k, v => [(k, v)]
  | (k0, v0) :: rest, k, v =>
      if k = k0 then (k, v) :: rest else (k0, v0) :: ainsert rest k v

/-- An index tree: `iradix` tree from index key to stored object.
A mutation context (`iradix.Txn`) over such a tree is modelled by the
tree value itself, since `Txn()` snapshots and `Commit()` finalizes. -/
abbrev ITree := List (Key × Obj)

/-- The root tree: `iradix` tree from index path to that index's tree.
In Go the values are `interface{}` holding `*iradix.Tree`. -/
abbrev RTree := List (Key × ITree)

/-- `tableIndex` from txn.go: a tuple of (Table, Index) used for lookups. -/
abbrev TableIndex := String × String

/-- Indexer capability of an index schema (spec §6; the concrete type is
not under `src/`).  `fromObject` models Go's
`FromObject(obj) (bool, []byte, error)`: `.error` is a non-nil error,
`.ok none` is `ok == false` (value absent), `.ok (some k)` is success.
`fromArgs` models `FromArgs(args...) ([]byte, error)`. -/
structure Indexer where
  fromObject : Obj → Except Unit (Option Key)
  fromArgs : List Arg → Except Unit Key

/-- Modelled from the spec: Index Schema `{indexer capability,
unique: bool, allow_missing: bool}` (§3); the schema types are not part
of `src/`, only their use in txn.go is. -/
structure IndexSchema where
  indexer : Indexer
  unique : Bool
  allowMissing : Bool

/-- Modelled from the spec: a Table Schema maps index names to Index
Schemas (§3).  Go's `map` is an association list here; the list order
stands for one admissible iteration order of the Go map, whose order is
arbitrary and may differ between runs. -/
structure TableSchema where
  indexes : List (String × IndexSchema)

/-- Modelled from the spec: the Schema maps table names to Table
Schemas (§3). -/
structure Schema where
  tables : List (String × TableSchema)

/-- Modelled from the spec: the Root Store `{schema, root, writer_lock}`
(§3).  The writer lock itself is a `sync.Mutex`; what the claims need is
how often `Unlock` is called, so the model counts unlock events. -/
structure MemDB where
  schema : Schema
  root : RTree
  writerUnlocks : Nat

/-- `Txn` from txn.go.  `rootTxn == none` models the `nil` pointer a
finished transaction holds; `modified == none` models the `nil` map of a
transaction that has not touched any index. -/
structure Txn where
  write : Bool
  rootTxn : Option RTree
  modified : Option (List (TableIndex × ITree))

/-- The distinct error values produced by txn.go's `fmt.Errorf` calls,
one constructor per format string. -/
inductive GoError
  | readOnlyInsert
  | readOnlyDelete
  | invalidTable (table : String)
  | invalidIndex (index : String)
  | failedBuildIndex (name : String)
  | missingIndex (name : String)
  | indexError
deriving DecidableEq, Repr

/-- Result of a Go call: a normal return value, a non-nil `error`, or a
run-time panic (nil-pointer dereference or failed type assertion). -/
inductive Outcome (α : Type)
  | ok (a : α)
  | err (e : GoError)
  | panics
deriving DecidableEq, Repr

/-- Modelled from the spec: the Index Path Codec `encode(table, index)`
(§2, §6) is deterministic and collision-free; it is not under `src/`
(txn.go only calls `indexPath`).  A length prefix makes it injective. -/
def indexPath (table index : String) : Key :=
  table.data.length :: (table.data.map Char.toNat ++ index.data.map Char.toNat)

/-- `toTree` from txn.go: the unconditional type assertion
`raw.(*iradix.Tree)`.  A `none` argument is the `nil` interface obtained
when the root tree has no entry at the path, on which the assertion
panics; the model keeps that as `none` and callers surface it as
`Outcome.panics`. -/
def toTree (raw : Option ITree) : Option ITree := raw

/-- `readableIndex` from txn.go.  Returns `none` exactly when the Go
code panics: either `rootTxn` is `nil` or the type assertion in `toTree`
fails because the path is absent from the root tree. -/
def Txn.readableIndex (txn : Txn) (table index : String) : Option ITree :=
  match txn.write, txn.modified with
  | true, some m =>
    match alookup m (table, index) with
    | some exist => some exist
    | none =>
      match txn.rootTxn with
      | none => none
      | some r => toTree (alookup r (indexPath table index))
  | _, _ =>
    match txn.rootTxn with
    | none => none
    | some r => toTree (alookup r (indexPath table index))

/-- `writableIndex` from txn.go.  Returns the mutation context for the
(table, index) pair together with the updated transaction (whose
`modified` map now stores that context), or `none` when the Go code
panics as in `readableIndex`. -/
def Txn.writableIndex (txn : Txn) (table index : String) : Option (ITree × Txn) :=
  let m := txn.modified.getD []
  match alookup m (table, index) with
  | some exist => some (exist, { txn with modified := some m })
  | none =>
    match txn.rootTxn with
    | none => none
    | some r =>
      match toTree (alookup r (indexPath table index)) with
      | none => none
      | some indexTxn =>
        some (indexTxn, { txn with modified := some (ainsert m (table, index) indexTxn) })

/-- `Abort` from txn.go.  Returns the transaction and database after the
call; the unlock counter increments exactly when `db.writer.Unlock()`
runs. -/
def Txn.abort (txn : Txn) (db : MemDB) : Txn × MemDB :=
  if txn.write = false then (txn, db)
  else
    match txn.rootTxn with
    | none => (txn, db)
    | some _ =>
      ({ txn with rootTxn := none, modified := none },
       { db with writerUnlocks := db.writerUnlocks + 1 })

/-- The `for key, subTxn := range txn.modified` loop of `Commit`:
each sub-transaction is finalized and inserted into the root
transaction at its index path. -/
def commitFold (r : RTree) : List (TableIndex × ITree) → RTree
  | [] => r
  | (ti, subTxn) :: rest => commitFold (ainsert r (indexPath ti.1 ti.2) subTxn) rest

/-- `Commit` from txn.go: no-op for read transactions and for already
finished transactions; otherwise folds every modified sub-transaction
into the root transaction, publishes the new root, clears the
transaction and unlocks the writer lock. -/
def Txn.commit (txn : Txn) (db : MemDB) : Txn × MemDB :=
  if txn.write = false then (txn, db)
  else
    match txn.rootTxn with
    | none => (txn, db)
    | some r =>
      ({ txn with rootTxn := none, modified := none },
       { db with root := commitFold r (txn.modified.getD []),
                 writerUnlocks := db.writerUnlocks + 1 })

/-- The `for name, indexSchema := range tableSchema.Indexes` loop of
`Insert`.  The list argument is the iteration order of the Go map,
which the Go runtime chooses arbitrarily per run.  Returns the
transaction as left by the call together with the outcome. -/
def Txn.insertLoop (txn : Txn) (table : String) (obj : Obj) :
    List (String × IndexSchema) → Txn × Outcome Unit
  | [] => (txn, .ok ())
  | (name, indexSchema) :: rest =>
    match indexSchema.indexer.fromObject obj with
    | .error _ => (txn, .err (.failedBuildIndex name))
    | .ok none =>
      if indexSchema.allowMissing then txn.insertLoop table obj rest
      else (txn, .err (.missingIndex name))
    | .ok (some val) =>
      match txn.writableIndex table name with
      | none => (txn, .panics)
      | some (indexTxn, txn1) =>
        Txn.insertLoop
          { txn1 with
              modified := some (ainsert (txn1.modified.getD []) (table, name)
                                  (ainsert indexTxn val obj)) }
          table obj rest

/-- `Insert` from txn.go. -/
def Txn.insert (txn : Txn) (db : MemDB) (table : String) (obj : Obj) :
    Txn × Outcome Unit :=
  if txn.write = false then (txn, .err .readOnlyInsert)
  else
    match alookup db.schema.tables table with
    | none => (txn, .err (.invalidTable table))
    | some tableSchema => txn.insertLoop table obj tableSchema.indexes

/-- `Delete` from txn.go: after the read-only check the body is empty
and returns `nil`. -/
def Txn.delete (txn : Txn) (_db : MemDB) (_table _index : String) (_args : List Arg) :
    Txn × Outcome Unit :=
  if txn.write = false then (txn, .err .readOnlyDelete) else (txn, .ok ())

/-- `First` from txn.go. -/
def Txn.first (txn : Txn) (db : MemDB) (table index : String) (args : List Arg) :
    Outcome (Option Obj) :=
  match alookup db.schema.tables table with
  | none => .err (.invalidTable table)
  | some tableSchema =>
    match alookup tableSchema.indexes index with
    | none => .err (.invalidIndex index)
    | some indexSchema =>
      match indexSchema.indexer.fromArgs args with
      | .error _ => .err .indexError
      | .ok val =>
        match txn.readableIndex table index with
        | none => .panics
        | some indexTxn => .ok (alookup indexTxn val)

/-- `ResultIterator` from txn.go, kept abstract: the interface declares
only `Next`, and no value of it is ever constructed by the code. -/
abbrev ResultIterator := Unit

/-- `Get` from txn.go: the body is `return nil, nil` — a `nil` iterator
and a `nil` error, whatever the arguments. -/
def Txn.get (_txn : Txn) (_db : MemDB) (_table _index : String) (_args : List Arg) :
    Outcome (Option ResultIterator) :=
  .ok none

/-- Modelled from the spec: transaction construction (`BeginRead` /
`BeginWrite`, §4.5) is not under `src/`; both capture the Root Store's
current root as the transaction's snapshot, and a writer additionally
holds the writer lock. -/
def MemDB.txn (db : MemDB) (write : Bool) : Txn :=
  { write := write, rootTxn := some db.root, modified := none }

/-- Modelled from the spec: `BeginRead()` captures the current root with
no locking (§4.5). -/
def MemDB.beginRead (db : MemDB) : Txn := db.txn false

/-- Modelled from the spec: `BeginWrite()` acquires the writer lock and
captures the current root (§4.5). -/
def MemDB.beginWrite (db : MemDB) : Txn := db.txn true

/-! ### Association-list lemmas -/

theorem alookup_ainsert_self {α β : Type} [DecidableEq α]
    (l : List (α × β)) (k : α) (v : β) : alookup (ainsert l k v) k = some v := by
  induction l with
  | nil => simp [ainsert, alookup]
  | cons hd tl ih =>
    obtain ⟨k0, v0⟩ := hd
    by_cases h : k = k0 <;> simp [ainsert, alookup, h, ih]

theorem alookup_ainsert_ne {α β : Type} [DecidableEq α]
    (l : List (α × β)) (k k1 : α) (v : β) (h : k1 ≠ k) :
    alookup (ainsert l k v) k1 = alookup l k1 := by
  induction l with
  | nil => simp [ainsert, alookup, h]
  | cons hd tl ih =>
    obtain ⟨k0, v0⟩ := hd
    by_cases h0 : k = k0
    · subst h0; simp [ainsert, alookup, h]
    · by_cases h1 : k1 = k0 <;> simp [ainsert, alookup, h0, h1, ih]

theorem alookup_eq_some_of_mem {α β : Type} [DecidableEq α]
    (l : List (α × β)) (k : α) (v : β)
    (hmem : (k, v) ∈ l) (hnd : (l.map Prod.fst).Nodup) :
    alookup l k = some v := by
  induction l with
  | nil => cases hmem
  | cons hd tl ih =>
    obtain ⟨k0, v0⟩ := hd
    rcases List.mem_cons.mp hmem with heq | htl
    · obtain ⟨h1, h2⟩ := Prod.mk.injEq .. ▸ heq
      simp [alookup, h1, h2]
    · have hk : k ≠ k0 := by
        intro h
        subst h
        exact (List.nodup_cons.mp hnd).1 (List.mem_map.mpr ⟨(k, v), htl, rfl⟩)
      simp [alookup, hk, ih htl (List.nodup_cons.mp hnd).2]

theorem map_fst_ainsert {α β : Type} [DecidableEq α]
    (l : List (α × β)) (k : α) (v : β) :
    (ainsert l k v).map Prod.fst
      = if k ∈ l.map Prod.fst then l.map Prod.fst else l.map Prod.fst ++ [k] := by
  induction l with
  | nil => simp [ainsert]
  | cons hd tl ih =>
    obtain ⟨k0, v0⟩ := hd
    by_cases h : k = k0
    · subst h; simp [ainsert]
    · by_cases hm : k ∈ tl.map Prod.fst <;>
        simp [ainsert, h, hm, ih, Ne.symm h]

theorem nodup_ainsert {α β : Type} [DecidableEq α]
    (l : List (α × β)) (k : α) (v : β) (hnd : (l.map Prod.fst).Nodup) :
    ((ainsert l k v).map Prod.fst).Nodup := by
  rw [map_fst_ainsert]
  by_cases hm : k ∈ l.map Prod.fst
  · simpa [hm]
  · simp [hm, List.nodup_append, hnd]

/-! ### Injectivity of the index path codec -/

theorem char_toNat_injective : Function.Injective Char.toNat := by
  intro a b h
  have h2 := congrArg Char.ofNat h
  rwa [Char.ofNat_toNat, Char.ofNat_toNat] at h2

theorem indexPath_inj (t1 i1 t2 i2 : String)
    (h : indexPath t1 i1 = indexPath t2 i2) : t1 = t2 ∧ i1 = i2 := by
  unfold indexPath at h
  obtain ⟨hlen, happ⟩ := List.cons.injEq .. ▸ h
  have hmaplen : (t1.data.map Char.toNat).length = (t2.data.map Char.toNat).length := by
    simpa using hlen
  obtain ⟨h1, h2⟩ := List.append_inj happ hmaplen
  have hd1 : t1.data = t2.data := List.map_injective_iff.mpr char_toNat_injective h1
  have hd2 : i1.data = i2.data := List.map_injective_iff.mpr char_toNat_injective h2
  cases t1; cases t2; cases i1; cases i2
  simp_all

theorem indexPath_ne (ti1 ti2 : TableIndex) (h : ti1 ≠ ti2) :
    indexPath ti1.1 ti1.2 ≠ indexPath ti2.1 ti2.2 := by
  intro hp
  obtain ⟨h1, h2⟩ := indexPath_inj _ _ _ _ hp
  exact h (Prod.ext h1 h2)

/-! ### Simple facts about Commit and First -/

theorem commit_schema (txn : Txn) (db : MemDB) :
    ((txn.commit db).2).schema = db.schema := by
  by_cases hw : txn.write = false
  · simp [Txn.commit, hw]
  · cases hr : txn.rootTxn <;> simp [Txn.commit, hw, hr]

theorem first_congr (txn : Txn) (db db2 : MemDB) (table index : String)
    (args : List Arg) (h : db.schema = db2.schema) :
    txn.first db table index args = txn.first db2 table index args := by
  simp only [Txn.first, h]

/-! ### Concrete schemas for witnesses and counterexamples

The spec's running scenario (§8): table `"person"` with a unique `"id"`
index on the first field and a non-unique `"age"` index on the second
field of an object. -/

/-- Indexer for the `id` field: key is the first component. -/
def idIndexer : Indexer :=
  { fromObject := fun o => .ok (some [o.1]),
    fromArgs := fun a => match a with | [n] => .ok [n] | _ => .error () }

/-- Indexer for the `age` field: key is the second component. -/
def ageIndexer : Indexer :=
  { fromObject := fun o => .ok (some [o.2]),
    fromArgs := fun a => match a with | [n] => .ok [n] | _ => .error () }

/-- An indexer whose value is always absent (`ok == false` in Go). -/
def absentIndexer : Indexer :=
  { fromObject := fun _ => .ok none,
    fromArgs := fun _ => .ok [] }

def idSchema : IndexSchema := { indexer := idIndexer, unique := true, allowMissing := false }

def ageSchema : IndexSchema := { indexer := ageIndexer, unique := false, allowMissing := false }

/-- A required index whose value is never present on any object. -/
def absentSchema : IndexSchema := { indexer := absentIndexer, unique := false, allowMissing := false }

def personTable : TableSchema := { indexes := [("id", idSchema), ("age", ageSchema)] }

def personSchema : Schema := { tables := [("person", personTable)] }

/-- Root tree with an (empty) index tree initialized at both of the
person table's index paths. -/
def personRoot : RTree :=
  [(indexPath "person" "id", []), (indexPath "person" "age", [])]

def personDB : MemDB := { schema := personSchema, root := personRoot, writerUnlocks := 0 }

/-- Same schema as `personDB` but with a root tree holding no index
trees at all, as after construction without initialization. -/
def emptyRootDB : MemDB := { schema := personSchema, root := [], writerUnlocks := 0 }

/-- Table whose index `"id"` always succeeds and whose index `"email"`
is required (`allow_missing = false`) but absent on every object. -/
def contactTable : TableSchema := { indexes := [("id", idSchema), ("email", absentSchema)] }

def contactSchema : Schema := { tables := [("contact", contactTable)] }

def contactRoot : RTree :=
  [(indexPath "contact" "id", []), (indexPath "contact" "email", [])]

def contactDB : MemDB := { schema := contactSchema, root := contactRoot, writerUnlocks := 0 }

/-- Table with two required indexes `"a"`, `"b"` that are both absent on
every object, listed in the order a, b. -/
def twoMissTable : TableSchema := { indexes := [("a", absentSchema), ("b", absentSchema)] }

/-- The same two index entries in the opposite enumeration order: as a
Go map both tables are the same value, and the runtime may present
either order to `range`. -/
def twoMissTableRev : TableSchema := { indexes := twoMissTable.indexes.reverse }

def twoMissDB : MemDB :=
  { schema := { tables := [("t", twoMissTable)] }, root := [], writerUnlocks := 0 }

def twoMissDBRev : MemDB :=
  { schema := { tables := [("t", twoMissTableRev)] }, root := [], writerUnlocks := 0 }

/-! ### Claim theorems -/

/-- C1: the claim says a failed `Insert` leaves every index's mutation
context unchanged (all index keys computed before any tree is mutated).
The code instead interleaves key computation with mutation: inserting
object (5,7) into table `contact`, whose required index `email` has no
value, returns the `missing value for index` error, yet the `id` index's
mutation context in the working set already contains the new entry,
whereas it did not exist before the call. -/
theorem c1_insert_not_atomic :
    ((contactDB.beginWrite).insert contactDB "contact" (5, 7)).2
        = .err (.missingIndex "email") ∧
    (contactDB.beginWrite).modified = none ∧
    ((contactDB.beginWrite).insert contactDB "contact" (5, 7)).1.modified
        = some [(("contact", "id"), [([5], (5, 7))])] :=
  ⟨rfl, rfl, rfl⟩

/-- C2: snapshot isolation for readers.  A read transaction resolves
every index solely from the root tree captured at its creation
(second conjunct), so its `First` results are unaffected by any
writer's `Commit` that publishes a new root afterwards (first
conjunct): it keeps observing the prior value or absence. -/
theorem c2_snapshot_isolation (db : MemDB) (wtxn : Txn)
    (table index : String) (args : List Arg) :
    (db.beginRead).first ((wtxn.commit db).2) table index args
        = (db.beginRead).first db table index args ∧
    (db.beginRead).readableIndex table index
        = toTree (alookup db.root (indexPath table index)) := by
  constructor
  · exact first_congr (db.beginRead) _ db table index args (commit_schema wtxn db)
  · rfl

/-- C3: the claim says a second object with an equal non-unique key is
associated alongside the first.  The code's `Insert` (its non-unique
handling is an unimplemented TODO) calls the radix tree's
insert-or-replace, so after inserting (1,30) and (2,30) — both with age
key [30] — and committing, the `age` index tree holds only the second
record, and `First` on age 30 returns only (2,30); the first record's
association is lost. -/
theorem c3_nonunique_overwritten :
    (((personDB.beginWrite).insert personDB "person" (1, 30)).2 = .ok ()) ∧
    ((((personDB.beginWrite).insert personDB "person" (1, 30)).1.insert
        personDB "person" (2, 30)).2 = .ok ()) ∧
    (alookup (((((personDB.beginWrite).insert personDB "person" (1, 30)).1.insert
        personDB "person" (2, 30)).1.commit personDB).2).root
        (indexPath "person" "age") = some [([30], (2, 30))]) ∧
    ((((((personDB.beginWrite).insert personDB "person" (1, 30)).1.insert
        personDB "person" (2, 30)).1.commit personDB).2).beginRead).first
        (((((personDB.beginWrite).insert personDB "person" (1, 30)).1.insert
        personDB "person" (2, 30)).1.commit personDB).2) "person" "age" [30]
        = .ok (some (2, 30)) :=
  ⟨rfl, rfl, rfl, rfl⟩

/-- C4: the claim says `Delete` locates the object, removes it from
every index, and reports `NotFound` when absent.  The code's `Delete`
body is a stub: on a write transaction it returns `nil` having touched
nothing.  After Insert (1,30), Commit, Delete, Commit, `First` on the
`id` index still returns the object (not absent), and deleting a
never-inserted object also returns `nil` instead of `NotFound`. -/
theorem c4_delete_is_noop :
    ((((personDB.beginWrite).insert personDB "person" (1, 30)).1.commit
        personDB).2.beginWrite).delete
        ((((personDB.beginWrite).insert personDB "person" (1, 30)).1.commit
        personDB).2) "person" "id" [1]
      = (((((personDB.beginWrite).insert personDB "person" (1, 30)).1.commit
        personDB).2.beginWrite), .ok ()) ∧
    ((((((((personDB.beginWrite).insert personDB "person" (1, 30)).1.commit
        personDB).2.beginWrite).commit
        ((((personDB.beginWrite).insert personDB "person" (1, 30)).1.commit
        personDB).2)).2).beginRead).first
        ((((((personDB.beginWrite).insert personDB "person" (1, 30)).1.commit
        personDB).2.beginWrite).commit
        ((((personDB.beginWrite).insert personDB "person" (1, 30)).1.commit
        personDB).2)).2) "person" "id" [1] = .ok (some (1, 30))) ∧
    ((personDB.beginWrite).delete personDB "person" "id" [99]
      = (personDB.beginWrite, .ok ())) :=
  ⟨rfl, rfl, rfl⟩

/-- C5: the claim says `Get` resolves schema and arguments like `First`
(failing with the corresponding errors) and returns an ordered iterator
over matching records.  The code's `Get` body is `return nil, nil`: for
a table absent from the schema it still returns a nil iterator with no
error, and even for a valid (table, index, args) triple it returns a
nil iterator rather than a sequence of records. -/
theorem c5_get_is_stub :
    ((personDB.beginRead).get personDB "nosuch" "nope" [] = .ok none) ∧
    (alookup personDB.schema.tables "nosuch" = none) ∧
    ((personDB.beginRead).get personDB "person" "id" [1] = .ok none) :=
  ⟨rfl, rfl, rfl⟩

/-- C9: the claim says `Insert` walks the table's indexes in a stable,
deterministic order, so the failing index reported is the same on every
run.  The code ranges over a Go map, whose iteration order is chosen
arbitrarily by the runtime per run.  The two tables below hold the same
index entries (one list is the reverse of the other — the same map),
yet under one enumeration order Insert reports index `a` missing and
under the other it reports index `b`. -/
theorem c9_insert_order_dependent :
    twoMissTableRev.indexes = twoMissTable.indexes.reverse ∧
    List.Perm twoMissTableRev.indexes twoMissTable.indexes ∧
    ((twoMissDB.beginWrite).insert twoMissDB "t" (0, 0)).2
        = .err (.missingIndex "a") ∧
    ((twoMissDBRev.beginWrite).insert twoMissDBRev "t" (0, 0)).2
        = .err (.missingIndex "b") :=
  ⟨rfl, List.reverse_perm twoMissTable.indexes, rfl, rfl⟩

/-- C6: Commit and Abort are idempotent terminal transitions.  After a
first Commit or Abort, any further Commit or Abort in any combination
returns the transaction and database unchanged — the root is not
altered again and the unlock counter does not move (conjuncts 1–4).
For read transactions both calls are always no-ops (conjunct 5).  For
an Active write transaction (the `rootTxn` sentinel still set) the
first Commit or Abort releases the writer lock exactly once and clears
the sentinel (conjunct 6). -/
theorem c6_commit_abort_idempotent (db : MemDB) (txn : Txn) :
    (Txn.commit (txn.commit db).1 (txn.commit db).2 = ((txn.commit db).1, (txn.commit db).2)) ∧
    (Txn.abort (txn.commit db).1 (txn.commit db).2 = ((txn.commit db).1, (txn.commit db).2)) ∧
    (Txn.commit (txn.abort db).1 (txn.abort db).2 = ((txn.abort db).1, (txn.abort db).2)) ∧
    (Txn.abort (txn.abort db).1 (txn.abort db).2 = ((txn.abort db).1, (txn.abort db).2)) ∧
    (txn.write = false → txn.commit db = (txn, db) ∧ txn.abort db = (txn, db)) ∧
    (txn.write = true → ∀ r, txn.rootTxn = some r →
      (txn.commit db).2.writerUnlocks = db.writerUnlocks + 1 ∧
      (txn.commit db).1.rootTxn = none ∧
      (txn.abort db).2.writerUnlocks = db.writerUnlocks + 1 ∧
      (txn.abort db).1.rootTxn = none) := by
  cases hw : txn.write
  · cases hr : txn.rootTxn <;> simp [Txn.commit, Txn.abort, hw, hr]
  · cases hr : txn.rootTxn <;> simp [Txn.commit, Txn.abort, hw, hr]

/-- Witness for C6 at concrete inputs: a fresh write transaction on
`personDB` commits with exactly one unlock, and both terminal calls on
a read transaction are no-ops. -/
theorem c6_witness :
    (((personDB.beginWrite).commit personDB).2.writerUnlocks = personDB.writerUnlocks + 1) ∧
    ((personDB.beginRead).commit personDB = (personDB.beginRead, personDB)) ∧
    ((personDB.beginRead).abort personDB = (personDB.beginRead, personDB)) := by
  refine ⟨?_, ?_, ?_⟩
  · exact ((c6_commit_abort_idempotent personDB (personDB.beginWrite)).2.2.2.2.2
      rfl personDB.root rfl).1
  · exact ((c6_commit_abort_idempotent personDB (personDB.beginRead)).2.2.2.2.1 rfl).1
  · exact ((c6_commit_abort_idempotent personDB (personDB.beginRead)).2.2.2.2.1 rfl).2

/-- C7: `First` fails with the `invalid table` error when the table is
not in the schema, with the `invalid index` error when the index is not
declared on the table, and with the `index error` when the indexer
cannot encode the arguments; otherwise it performs an exact lookup on
the resolved index tree and returns the stored record at the key, in
particular an absent result with no error when no record matches. -/
theorem c7_first_resolution (db : MemDB) (txn : Txn) (table index : String)
    (args : List Arg) :
    (alookup db.schema.tables table = none →
      txn.first db table index args = .err (.invalidTable table)) ∧
    (∀ ts, alookup db.schema.tables table = some ts →
      alookup ts.indexes index = none →
      txn.first db table index args = .err (.invalidIndex index)) ∧
    (∀ ts ixs, alookup db.schema.tables table = some ts →
      alookup ts.indexes index = some ixs →
      (∀ e, ixs.indexer.fromArgs args = .error e →
        txn.first db table index args = .err .indexError) ∧
      (∀ k tree, ixs.indexer.fromArgs args = .ok k →
        txn.readableIndex table index = some tree →
        txn.first db table index args = .ok (alookup tree k) ∧
        (alookup tree k = none → txn.first db table index args = .ok none))) := by
  refine ⟨?_, ?_, ?_⟩
  · intro h
    simp [Txn.first, h]
  · intro ts hts hix
    simp [Txn.first, hts, hix]
  · intro ts ixs hts hix
    constructor
    · intro e he
      simp [Txn.first, hts, hix, he]
    · intro k tree hk htree
      constructor
      · simp [Txn.first, hts, hix, hk, htree]
      · intro habs
        simp [Txn.first, hts, hix, hk, htree, habs]

/-- Witness for C7 at concrete inputs on `personDB`: an unknown table,
an unknown index, an argument-encoding failure, and a successful
resolution with no matching record (absent, no error). -/
theorem c7_witness :
    ((personDB.beginRead).first personDB "nosuch" "id" [] = .err (.invalidTable "nosuch")) ∧
    ((personDB.beginRead).first personDB "person" "nosuch" [] = .err (.invalidIndex "nosuch")) ∧
    ((personDB.beginRead).first personDB "person" "id" [] = .err .indexError) ∧
    ((personDB.beginRead).first personDB "person" "id" [1] = .ok none) := by
  refine ⟨?_, ?_, ?_, ?_⟩
  · exact (c7_first_resolution personDB (personDB.beginRead) "nosuch" "id" []).1 rfl
  · exact (c7_first_resolution personDB (personDB.beginRead) "person" "nosuch" []).2.1
      personTable rfl rfl
  · exact ((c7_first_resolution personDB (personDB.beginRead) "person" "id" []).2.2
      personTable idSchema rfl rfl).1 () rfl
  · exact (((c7_first_resolution personDB (personDB.beginRead) "person" "id" [1]).2.2
      personTable idSchema rfl rfl).2 [1] [] rfl rfl).2 rfl

/-- C10: when the (table, index) pair's path has no entry in the
transaction's root tree snapshot (and no mutation context exists for it
yet), the root lookup yields the nil interface and the unconditional
type assertion in `toTree` panics: `readableIndex` and `writableIndex`
have no value to return, `First` panics after successful schema and
argument resolution instead of returning an error value, and `Insert`
panics on such an index after key extraction succeeds. -/
theorem c10_missing_tree_panics (db : MemDB) (txn : Txn) (table index : String)
    (args : List Arg) (r : RTree) (ts : TableSchema) (ixs : IndexSchema)
    (rest : List (String × IndexSchema)) (obj : Obj) (k k2 : Key)
    (hroot : txn.rootTxn = some r)
    (hpath : alookup r (indexPath table index) = none)
    (hmod : alookup (txn.modified.getD []) (table, index) = none) :
    txn.readableIndex table index = none ∧
    txn.writableIndex table index = none ∧
    (alookup db.schema.tables table = some ts →
      alookup ts.indexes index = some ixs →
      ixs.indexer.fromArgs args = .ok k →
      txn.first db table index args = .panics) ∧
    (txn.write = true →
      alookup db.schema.tables table = some ts →
      ts.indexes = (index, ixs) :: rest →
      ixs.indexer.fromObject obj = .ok (some k2) →
      txn.insert db table obj = (txn, .panics)) := by
  have hread : txn.readableIndex table index = none := by
    unfold Txn.readableIndex
    cases hw : txn.write <;> cases hm : txn.modified <;>
      simp_all [toTree, Option.getD]
  have hwrite : txn.writableIndex table index = none := by
    unfold Txn.writableIndex
    simp [hmod, hroot, hpath, toTree]
  refine ⟨hread, hwrite, ?_, ?_⟩
  · intro hts hix hk
    simp [Txn.first, hts, hix, hk, hread]
  · intro hw hts hixs hobj
    simp [Txn.insert, hw, hts, hixs, Txn.insertLoop, hobj, hwrite]

/-- Witness for C10: `emptyRootDB` has an empty root tree, so a write
transaction on it panics in `First` and in `Insert` for the declared
`person`/`id` index. -/
theorem c10_witness :
    ((emptyRootDB.beginWrite).readableIndex "person" "id" = none) ∧
    ((emptyRootDB.beginWrite).writableIndex "person" "id" = none) ∧
    ((emptyRootDB.beginWrite).first emptyRootDB "person" "id" [1] = .panics) ∧
    ((emptyRootDB.beginWrite).insert emptyRootDB "person" (1, 30)
      = (emptyRootDB.beginWrite, .panics)) := by
  have h := c10_missing_tree_panics emptyRootDB (emptyRootDB.beginWrite) "person" "id"
    [1] [] personTable idSchema [("age", ageSchema)] (1, 30) [1] [1] rfl rfl rfl
  exact ⟨h.1, h.2.1, h.2.2.1 rfl rfl rfl, h.2.2.2 rfl rfl rfl rfl⟩

/-! ### Lemmas about the write path, for the round-trip claim -/

/-- `writableIndex` preserves the transaction's `write` flag and root
snapshot, changes the `modified` map at no key other than the requested
one, and keeps its keys duplicate-free. -/
theorem writableIndex_fields (txn : Txn) (table index : String) (tr : ITree)
    (txn1 : Txn) (h : txn.writableIndex table index = some (tr, txn1)) :
    txn1.write = txn.write ∧ txn1.rootTxn = txn.rootTxn ∧
    (∀ ti, ti ≠ (table, index) →
      alookup (txn1.modified.getD []) ti = alookup (txn.modified.getD []) ti) ∧
    (((txn.modified.getD []).map Prod.fst).Nodup →
      ((txn1.modified.getD []).map Prod.fst).Nodup) := by
  unfold Txn.writableIndex at h
  simp only [toTree] at h
  cases hlk : alookup (txn.modified.getD []) (table, index) with
  | some exist =>
    rw [hlk] at h
    injection h with h2
    obtain ⟨h3, h4⟩ := Prod.mk.injEq .. ▸ h2
    subst h4
    refine ⟨rfl, rfl, fun ti _ => rfl, fun hnd => hnd⟩
  | none =>
    simp only [hlk] at h
    cases hr : txn.rootTxn with
    | none => simp only [hr] at h; cases h
    | some r =>
      simp only [hr] at h
      cases hp : alookup r (indexPath table index) with
      | none => simp only [hp] at h; cases h
      | some itx =>
        simp only [hp] at h
        injection h with h2
        obtain ⟨h3, h4⟩ := Prod.mk.injEq .. ▸ h2
        subst h4
        refine ⟨rfl, rfl, ?_, ?_⟩
        · intro ti hti
          simpa using alookup_ainsert_ne (txn.modified.getD []) (table, index) ti itx hti
        · intro hnd
          simpa using nodup_ainsert (txn.modified.getD []) (table, index) itx hnd

/-- The `Insert` loop preserves the `write` flag, the root snapshot,
and duplicate-freedom of the working set's keys, whatever its outcome. -/
theorem insertLoop_fields (table : String) (obj : Obj) :
    ∀ (l : List (String × IndexSchema)) (txn : Txn),
      ((txn.insertLoop table obj l).1.write = txn.write) ∧
      ((txn.insertLoop table obj l).1.rootTxn = txn.rootTxn) ∧
      (((txn.modified.getD []).map Prod.fst).Nodup →
        (((txn.insertLoop table obj l).1.modified.getD []).map Prod.fst).Nodup) := by
  intro l
  induction l with
  | nil => exact fun txn => ⟨rfl, rfl, fun h => h⟩
  | cons hd tl ih =>
    intro txn
    obtain ⟨name, ixs⟩ := hd
    unfold Txn.insertLoop
    cases hob : ixs.indexer.fromObject obj with
    | error e => exact ⟨rfl, rfl, fun h => h⟩
    | ok vo =>
      cases vo with
      | none =>
        cases ham : ixs.allowMissing with
        | false => simp
        | true => simp only [if_true]; exact ih txn
      | some val =>
        cases hw : txn.writableIndex table name with
        | none => exact ⟨rfl, rfl, fun h => h⟩
        | some p =>
          obtain ⟨tr, txn1⟩ := p
          obtain ⟨hwr, hrt, _, hnd1⟩ := writableIndex_fields txn table name tr txn1 hw
          set txn2 : Txn :=
            { txn1 with
                modified := some (ainsert (txn1.modified.getD []) (table, name)
                                    (ainsert tr val obj)) } with htxn2
          obtain ⟨ih1, ih2, ih3⟩ := ih txn2
          refine ⟨by rw [ih1, htxn2, hwr], by rw [ih2, htxn2, hrt], ?_⟩
          intro hnd
          refine ih3 ?_
          rw [htxn2]
          simpa using nodup_ainsert (txn1.modified.getD []) (table, name)
            (ainsert tr val obj) (hnd1 hnd)

/-- The `Insert` loop leaves the mutation context of every
(table, index) pair it does not name untouched. -/
theorem insertLoop_alookup_other (table : String) (obj : Obj) (ti : TableIndex) :
    ∀ (l : List (String × IndexSchema)) (txn : Txn),
      (∀ nm ixs, (nm, ixs) ∈ l → (table, nm) ≠ ti) →
      alookup (((txn.insertLoop table obj l).1).modified.getD []) ti
        = alookup (txn.modified.getD []) ti := by
  intro l
  induction l with
  | nil => exact fun txn _ => rfl
  | cons hd tl ih =>
    intro txn hne
    obtain ⟨name, ixs⟩ := hd
    unfold Txn.insertLoop
    cases hob : ixs.indexer.fromObject obj with
    | error e => rfl
    | ok vo =>
      cases vo with
      | none =>
        cases ham : ixs.allowMissing with
        | false => simp
        | true =>
          simp only [if_true]
          exact ih txn fun nm ixs2 hmem => hne nm ixs2 (List.mem_cons_of_mem _ hmem)
      | some val =>
        cases hw : txn.writableIndex table name with
        | none => rfl
        | some p =>
          obtain ⟨tr, txn1⟩ := p
          obtain ⟨_, _, hother, _⟩ := writableIndex_fields txn table name tr txn1 hw
          have hti : (table, name) ≠ ti := hne name ixs (List.mem_cons_self _ _)
          calc alookup (((Txn.insertLoop
                  { txn1 with
                      modified := some (ainsert (txn1.modified.getD []) (table, name)
                                          (ainsert tr val obj)) }
                  table obj tl).1).modified.getD []) ti
              = alookup (ainsert (txn1.modified.getD []) (table, name)
                  (ainsert tr val obj)) ti :=
                ih _ fun nm ixs2 hmem => hne nm ixs2 (List.mem_cons_of_mem _ hmem)
            _ = alookup (txn1.modified.getD []) ti :=
                alookup_ainsert_ne _ _ _ _ (Ne.symm hti)
            _ = alookup (txn.modified.getD []) ti := hother ti (Ne.symm hti)

/-- After a successful run of the `Insert` loop, the mutation context
of every index it inserted into holds the object at its computed key. -/
theorem insertLoop_ok_found (table : String) (obj : Obj) :
    ∀ (l : List (String × IndexSchema)) (txn txn2 : Txn) (name : String)
      (ixs : IndexSchema) (k : Key),
      txn.insertLoop table obj l = (txn2, .ok ()) →
      (name, ixs) ∈ l →
      (l.map Prod.fst).Nodup →
      ixs.indexer.fromObject obj = .ok (some k) →
      ∃ tree, alookup (txn2.modified.getD []) (table, name) = some tree ∧
        alookup tree k = some obj := by
  intro l
  induction l with
  | nil => intro txn txn2 name ixs k _ hmem; cases hmem
  | cons hd tl ih =>
    intro txn txn2 name ixs k hrun hmem hnd hob
    obtain ⟨nm0, ixs0⟩ := hd
    rcases List.mem_cons.mp hmem with heq | htl
    · obtain ⟨h1, h2⟩ := Prod.mk.injEq .. ▸ heq
      subst h1; subst h2
      unfold Txn.insertLoop at hrun
      cases hw : txn.writableIndex table name with
      | none => simp [hob, hw] at hrun
      | some p =>
        obtain ⟨tr, txn1⟩ := p
        simp only [hob, hw] at hrun
        have hpres := insertLoop_alookup_other table obj (table, name) tl
          { txn1 with
              modified := some (ainsert (txn1.modified.getD []) (table, name)
                                  (ainsert tr k obj)) }
          (fun nm ixs2 hmem2 hcontra => by
            have : nm = name := (Prod.mk.injEq .. ▸ hcontra).2
            subst this
            exact (List.nodup_cons.mp hnd).1 (List.mem_map.mpr ⟨(nm, ixs2), hmem2, rfl⟩))
        refine ⟨ainsert tr k obj, ?_, alookup_ainsert_self tr k obj⟩
        rw [hrun] at hpres
        simpa [alookup_ainsert_self] using hpres
    · unfold Txn.insertLoop at hrun
      cases hob0 : ixs0.indexer.fromObject obj with
      | error e => simp [hob0] at hrun
      | ok vo =>
        cases vo with
        | none =>
          cases ham : ixs0.allowMissing with
          | false => simp [hob0, ham] at hrun
          | true =>
            simp only [hob0, ham, if_true] at hrun
            exact ih txn txn2 name ixs k hrun htl (List.nodup_cons.mp hnd).2 hob
        | some val =>
          cases hw : txn.writableIndex table nm0 with
          | none => simp [hob0, hw] at hrun
          | some p =>
            obtain ⟨tr, txn1⟩ := p
            simp only [hob0, hw] at hrun
            exact ih _ txn2 name ixs k hrun htl (List.nodup_cons.mp hnd).2 hob

/-- Folding a working set whose keys avoid a (table, index) pair does
not change the root tree at that pair's path — the path codec is
collision-free. -/
theorem alookup_commitFold_not_mem :
    ∀ (m : List (TableIndex × ITree)) (r : RTree) (ti : TableIndex),
      ti ∉ m.map Prod.fst →
      alookup (commitFold r m) (indexPath ti.1 ti.2)
        = alookup r (indexPath ti.1 ti.2) := by
  intro m
  induction m with
  | nil => intro r ti _; rfl
  | cons hd tl ih =>
    intro r ti hnm
    obtain ⟨tj, sub⟩ := hd
    have hne : ti ≠ tj := fun h =>
      hnm (h ▸ List.mem_cons_self _ _ : ti ∈ (tj, sub).fst :: tl.map Prod.fst)
    calc alookup (commitFold (ainsert r (indexPath tj.1 tj.2) sub) tl)
            (indexPath ti.1 ti.2)
        = alookup (ainsert r (indexPath tj.1 tj.2) sub) (indexPath ti.1 ti.2) :=
          ih _ ti (fun h => hnm (List.mem_cons_of_mem _ h))
      _ = alookup r (indexPath ti.1 ti.2) :=
          alookup_ainsert_ne _ _ _ _ (indexPath_ne ti tj hne)

/-- After `Commit`'s fold, the root tree holds, at the path of every
pair in the working set, exactly that pair's finalized index tree. -/
theorem alookup_commitFold_of_mem :
    ∀ (m : List (TableIndex × ITree)) (r : RTree) (ti : TableIndex) (tree : ITree),
      alookup m ti = some tree →
      (m.map Prod.fst).Nodup →
      alookup (commitFold r m) (indexPath ti.1 ti.2) = some tree := by
  intro m
  induction m with
  | nil => intro r ti tree h; cases h
  | cons hd tl ih =>
    intro r ti tree hlk hnd
    obtain ⟨tj, sub⟩ := hd
    by_cases heq : ti = tj
    · subst heq
      have hsub : sub = tree := by simpa [alookup] using hlk
      subst hsub
      have hnotin : ti ∉ tl.map Prod.fst := by
        simpa using (List.nodup_cons.mp hnd).1
      calc alookup (commitFold (ainsert r (indexPath ti.1 ti.2) sub) tl)
              (indexPath ti.1 ti.2)
          = alookup (ainsert r (indexPath ti.1 ti.2) sub) (indexPath ti.1 ti.2) :=
            alookup_commitFold_not_mem tl _ ti hnotin
        _ = some sub := alookup_ainsert_self _ _ _
    · have hlk2 : alookup tl ti = some tree := by simpa [alookup, heq] using hlk
      exact ih _ ti tree hlk2 (List.nodup_cons.mp hnd).2

/-- C8: round-trip within a write transaction.  After a successful
`Insert` of `obj`, a `First` on any unique index the insert touched,
with arguments encoding the object's key for that index, returns the
inserted object — both inside the same transaction (the working set's
mutation context is reused by the read) and after `Commit`, through a
fresh read transaction on the published root. -/
theorem c8_round_trip (db : MemDB) (txn txn2 : Txn) (table name : String)
    (ts : TableSchema) (ixs : IndexSchema) (obj : Obj) (k : Key)
    (args : List Arg) (r : RTree)
    (hw : txn.write = true)
    (hroot : txn.rootTxn = some r)
    (hmodnd : ((txn.modified.getD []).map Prod.fst).Nodup)
    (hts : alookup db.schema.tables table = some ts)
    (hnd : (ts.indexes.map Prod.fst).Nodup)
    (hmem : (name, ixs) ∈ ts.indexes)
    (_huniq : ixs.unique = true)
    (hobj : ixs.indexer.fromObject obj = .ok (some k))
    (hargs : ixs.indexer.fromArgs args = .ok k)
    (hins : txn.insert db table obj = (txn2, .ok ())) :
    txn2.first db table name args = .ok (some obj) ∧
    (((txn2.commit db).2).beginRead).first ((txn2.commit db).2) table name args
      = .ok (some obj) := by
  have hrun : txn.insertLoop table obj ts.indexes = (txn2, .ok ()) := by
    unfold Txn.insert at hins
    simpa [hw, hts] using hins
  obtain ⟨tree, hfound, htree⟩ :=
    insertLoop_ok_found table obj ts.indexes txn txn2 name ixs k hrun hmem hnd hobj
  obtain ⟨hfw, hfr, hfnd⟩ := insertLoop_fields table obj ts.indexes txn
  rw [hrun] at hfw hfr hfnd
  have hw2 : txn2.write = true := by rw [hfw, hw]
  have hroot2 : txn2.rootTxn = some r := by rw [hfr, hroot]
  have hnd2 : ((txn2.modified.getD []).map Prod.fst).Nodup := hfnd hmodnd
  have hix : alookup ts.indexes name = some ixs :=
    alookup_eq_some_of_mem ts.indexes name ixs hmem hnd
  obtain ⟨m2, hm2⟩ : ∃ m2, txn2.modified = some m2 := by
    cases hm : txn2.modified with
    | none => rw [hm] at hfound; cases hfound
    | some m2 => exact ⟨m2, rfl⟩
  have hfound2 : alookup m2 (table, name) = some tree := by
    rw [hm2] at hfound; simpa using hfound
  have hread : txn2.readableIndex table name = some tree := by
    unfold Txn.readableIndex
    simp [hw2, hm2, hfound2]
  constructor
  · simp [Txn.first, hts, hix, hargs, hread, htree]
  · have hcroot : ((txn2.commit db).2).root = commitFold r m2 := by
      simp [Txn.commit, hw2, hroot2, hm2]
    have hcsch : ((txn2.commit db).2).schema = db.schema := commit_schema txn2 db
    have hfold : alookup (commitFold r m2) (indexPath table name) = some tree := by
      have := alookup_commitFold_of_mem m2 r (table, name) tree hfound2
        (by rw [hm2] at hnd2; simpa using hnd2)
      simpa using this
    have hread2 : (((txn2.commit db).2).beginRead).readableIndex table name
        = some tree := by
      unfold Txn.readableIndex
      simp [MemDB.beginRead, MemDB.txn, toTree, hcroot, hfold]
    simp [Txn.first, hcsch, hts, hix, hargs, hread2, htree]

/-- Witness for C8: insert object (1,30) into `personDB`'s `person`
table through a fresh write transaction, then `First` it back by id
both inside the transaction and after `Commit`. -/
theorem c8_witness :
    (((personDB.beginWrite).insert personDB "person" (1, 30)).1.first
        personDB "person" "id" [1] = .ok (some (1, 30))) ∧
    (((((((personDB.beginWrite).insert personDB "person" (1, 30)).1).commit
        personDB).2).beginRead).first
        ((((((personDB.beginWrite).insert personDB "person" (1, 30)).1).commit
        personDB).2)) "person" "id" [1] = .ok (some (1, 30))) := by
  exact c8_round_trip personDB (personDB.beginWrite)
    ((personDB.beginWrite).insert personDB "person" (1, 30)).1
    "person" "id" personTable idSchema (1, 30) [1] [1] personRoot
    rfl rfl (by decide) rfl (by decide) (List.Mem.head _) rfl rfl rfl rfl

end Memdb
